import Mathlib

/-!
# Verification of `screenshots/crop.py`

Shallow embedding of the image-crop script: it opens `ChangeList.png`,
computes `new_height = int(1200 * H / W)` (Python integer true-division
through an IEEE-754 binary64 float, then truncation), resizes the image to
`(1200, new_height)` with the Lanczos filter, crops the box
`(0, 0, 1200, 630)` anchored at the top-left, and saves the result to
`ChangeList_crop.png`.

The numeric core models CPython exactly: `int / int` true division produces
the correctly rounded (round-to-nearest, ties-to-even) binary64 value of the
exact quotient, and `int(...)` truncates toward zero.  The rounding is
modelled over `ℚ` with an unbounded exponent range; this coincides with
binary64 for all magnitudes between the subnormal and overflow thresholds,
which covers every value reasoned about below (and the statements proved are
insensitive to the sub-`2^-1022` regime, where both the model and the real
float land strictly between 0 and 1).
-/

set_option autoImplicit false

namespace Orw

/-- Round a rational to the nearest integer, ties to even.  This is the
significand-rounding step of IEEE-754 round-to-nearest-even. -/
def roundHalfEven (x : ℚ) : ℤ :=
  if x - ⌊x⌋ < 1/2 then ⌊x⌋
  else if 1/2 < x - ⌊x⌋ then ⌊x⌋ + 1
  else if ⌊x⌋ % 2 = 0 then ⌊x⌋ else ⌊x⌋ + 1

/-- Correctly rounded binary64 value of a nonnegative rational: scale into
the significand range `[2^52, 2^53)`, round to the nearest integer with ties
to even, and scale back.  (Unbounded exponent range; see the file header.) -/
def rnd64 (q : ℚ) : ℚ :=
  if q ≤ 0 then 0
  else (roundHalfEven (q * 2 ^ (52 - Int.log 2 q)) : ℚ) * 2 ^ (Int.log 2 q - 52)

/-- Python `int(...)` applied to a float value: truncation toward zero. -/
def pyint (q : ℚ) : ℤ := if 0 ≤ q then ⌊q⌋ else -⌊-q⌋

/-- `new_height = int(new_width * original_height / original_width)` from
`crop.py` (with `new_width = 1200`): exact integer product, CPython float
true-division, truncation.  Defined for `W ≠ 0`; the `W = 0` error case is
modelled by `new_heightE`. -/
def new_height (W H : ℕ) : ℤ := pyint (rnd64 ((1200 * H : ℚ) / W))

/-- Errors the script can die with (per its uncaught exceptions):
failure to open/decode the source, `ZeroDivisionError` in the ratio
computation, and Pillow's `ValueError("height and width must be > 0")`
raised by `resize` when a target dimension is zero. -/
inductive PipeError
  | decodeError
  | domainError
  | valueError
  deriving DecidableEq

/-- The `new_height` computation including Python's `ZeroDivisionError`:
`1200 * H / W` raises if and only if the divisor `W` is zero. -/
def new_heightE (W H : ℕ) : Except PipeError ℤ :=
  if W = 0 then .error .domainError else .ok (new_height W H)

theorem roundHalfEven_ge_floor (x : ℚ) : ⌊x⌋ ≤ roundHalfEven x := by
  unfold roundHalfEven
  split_ifs <;> omega

theorem roundHalfEven_le (x : ℚ) : (roundHalfEven x : ℚ) ≤ x + 1/2 := by
  unfold roundHalfEven
  split_ifs with h1 h2 h3
  · have := Int.floor_le x
    linarith
  · push_cast
    linarith
  · have := Int.floor_le x
    linarith
  · have h1' := not_lt.mp h1
    push_cast
    linarith

theorem roundHalfEven_intCast (n : ℤ) : roundHalfEven (n : ℚ) = n := by
  unfold roundHalfEven
  rw [Int.floor_intCast]
  norm_num

theorem roundHalfEven_lt_of (x : ℚ) (N : ℤ) (h : x + 1/2 < N) :
    roundHalfEven x < N := by
  have h1 := roundHalfEven_le x
  exact_mod_cast lt_of_le_of_lt h1 h

theorem roundHalfEven_ge_of (x : ℚ) (M : ℤ) (h : (M : ℚ) ≤ x) :
    M ≤ roundHalfEven x :=
  le_trans (Int.le_floor.mpr h) (roundHalfEven_ge_floor x)

theorem log2_eq_of {q : ℚ} {e : ℤ} (h0 : 0 < q) (h1 : 2 ^ e ≤ q)
    (h2 : q < 2 ^ (e + 1)) : Int.log 2 q = e := by
  have hle : e ≤ Int.log 2 q := by
    rw [← Int.zpow_le_iff_le_log one_lt_two h0]
    exact_mod_cast h1
  have hlt : Int.log 2 q < e + 1 := by
    rw [← Int.lt_zpow_iff_log_lt one_lt_two h0]
    exact_mod_cast h2
  omega

theorem rnd64_eq {q : ℚ} {e : ℤ} (h0 : 0 < q) (h1 : 2 ^ e ≤ q)
    (h2 : q < 2 ^ (e + 1)) :
    rnd64 q = (roundHalfEven (q * 2 ^ (52 - e)) : ℚ) * 2 ^ (e - 52) := by
  rw [rnd64, if_neg (not_le.mpr h0), log2_eq_of h0 h1 h2]

theorem rnd64_nonneg (q : ℚ) : 0 ≤ rnd64 q := by
  rw [rnd64]
  split_ifs with h
  · exact le_refl 0
  · have hq : 0 < q := not_le.mp h
    have hx : (0 : ℚ) ≤ q * 2 ^ (52 - Int.log 2 q) := by positivity
    have h3 : (0 : ℤ) ≤ roundHalfEven (q * 2 ^ (52 - Int.log 2 q)) :=
      le_trans (Int.floor_nonneg.mpr hx) (roundHalfEven_ge_floor _)
    have h4 : (0 : ℚ) ≤ (roundHalfEven (q * 2 ^ (52 - Int.log 2 q)) : ℚ) := by
      exact_mod_cast h3
    have h5 : (0 : ℚ) ≤ (2 : ℚ) ^ (Int.log 2 q - 52) := by positivity
    exact mul_nonneg h4 h5

theorem zpow_cancel_52 (e : ℤ) : (2 : ℚ) ^ (52 - e) * 2 ^ (e - 52) = 1 := by
  rw [← zpow_add₀ (by norm_num : (2 : ℚ) ≠ 0)]
  norm_num

/-- Lower bound on the rounded value: any integer `M` below the scaled
quotient scales back to a lower bound of `rnd64 q`. -/
theorem rnd64_ge {q : ℚ} {e M : ℤ} (h0 : 0 < q) (h1 : 2 ^ e ≤ q)
    (h2 : q < 2 ^ (e + 1)) (hM : (M : ℚ) ≤ q * 2 ^ (52 - e)) :
    (M : ℚ) * 2 ^ (e - 52) ≤ rnd64 q := by
  rw [rnd64_eq h0 h1 h2]
  have h3 : M ≤ roundHalfEven (q * 2 ^ (52 - e)) := roundHalfEven_ge_of _ M hM
  have h4 : (M : ℚ) ≤ (roundHalfEven (q * 2 ^ (52 - e)) : ℚ) := by exact_mod_cast h3
  have h5 : (0 : ℚ) ≤ (2 : ℚ) ^ (e - 52) := by positivity
  exact mul_le_mul_of_nonneg_right h4 h5

/-- Strict upper bound on the rounded value: if the scaled quotient is more
than half a unit below the integer `N`, then `rnd64 q` stays below
`N * 2^(e-52)`. -/
theorem rnd64_lt {q : ℚ} {e N : ℤ} (h0 : 0 < q) (h1 : 2 ^ e ≤ q)
    (h2 : q < 2 ^ (e + 1)) (hN : q * 2 ^ (52 - e) + 1/2 < N) :
    rnd64 q < (N : ℚ) * 2 ^ (e - 52) := by
  rw [rnd64_eq h0 h1 h2]
  have h3 : roundHalfEven (q * 2 ^ (52 - e)) < N := roundHalfEven_lt_of _ N hN
  have h4 : (roundHalfEven (q * 2 ^ (52 - e)) : ℚ) < (N : ℚ) := by exact_mod_cast h3
  have h5 : (0 : ℚ) < (2 : ℚ) ^ (e - 52) := by positivity
  exact mul_lt_mul_of_pos_right h4 h5

/-- Integers up to `2^53` are exactly representable in binary64, and the
correctly rounded quotient of an exact division is the exact value. -/
theorem rnd64_natCast {n : ℕ} (hn : n ≤ 2 ^ 53) : rnd64 (n : ℚ) = n := by
  rcases Nat.eq_zero_or_pos n with h0 | h0
  · subst h0
    simp [rnd64]
  rcases eq_or_lt_of_le hn with htop | hlt
  · subst htop
    have h1 : ((2 : ℚ)) ^ (53 : ℤ) ≤ ((2 ^ 53 : ℕ) : ℚ) := by norm_num
    have h2 : ((2 ^ 53 : ℕ) : ℚ) < 2 ^ ((53 : ℤ) + 1) := by norm_num
    rw [rnd64_eq (by positivity) h1 h2]
    have hx : ((2 ^ 53 : ℕ) : ℚ) * 2 ^ ((52 : ℤ) - 53) = ((2 ^ 52 : ℤ) : ℚ) := by
      rw [show ((52 : ℤ) - 53) = (-1 : ℤ) by norm_num, zpow_neg_one]
      push_cast
      norm_num
    rw [hx, roundHalfEven_intCast]
    norm_num
  · set k := Nat.log 2 n with hk
    have hk1 : 2 ^ k ≤ n := Nat.pow_log_le_self 2 (by omega)
    have hk2 : n < 2 ^ (k + 1) := Nat.lt_pow_succ_log_self one_lt_two n
    have hk52 : k ≤ 52 := by
      by_contra hgt
      have h53 : 53 ≤ k := by omega
      have : (2 : ℕ) ^ 53 ≤ 2 ^ k := Nat.pow_le_pow_right (by norm_num) h53
      omega
    have hq1 : (2 : ℚ) ^ (k : ℤ) ≤ (n : ℚ) := by
      rw [zpow_natCast]
      exact_mod_cast hk1
    have hq2 : (n : ℚ) < 2 ^ ((k : ℤ) + 1) := by
      rw [show ((k : ℤ) + 1) = ((k + 1 : ℕ) : ℤ) by omega, zpow_natCast]
      exact_mod_cast hk2
    rw [rnd64_eq (by exact_mod_cast h0) hq1 hq2]
    have hcast : (52 - (k : ℤ)) = ((52 - k : ℕ) : ℤ) := by omega
    have hx : (n : ℚ) * 2 ^ (52 - (k : ℤ)) = ((n * 2 ^ (52 - k) : ℕ) : ℤ) := by
      rw [hcast, zpow_natCast]
      push_cast
      ring
    rw [hx, roundHalfEven_intCast]
    push_cast
    rw [mul_assoc, ← zpow_natCast (2 : ℚ) (52 - k), ← hcast, zpow_cancel_52, mul_one]

theorem pyint_eq_floor {q : ℚ} (h : 0 ≤ q) : pyint q = ⌊q⌋ := if_pos h

/-- Master numeric lemma: CPython's `int(a / b)` — correctly rounded
binary64 true division followed by truncation — agrees with exact floor
division for every numerator `a ≤ 2^53`.  (The bound is tight in spirit:
the smallest failing numerator is `2^53 + 3`, see the `C3` counterexample.) -/
theorem pyint_rnd64_div {a b : ℕ} (hb : 0 < b) (ha : a ≤ 2 ^ 53) :
    pyint (rnd64 ((a : ℚ) / b)) = (a / b : ℕ) := by
  have hbq : (0 : ℚ) < b := by exact_mod_cast hb
  set n : ℕ := a / b with hn
  set r : ℕ := a % b with hr
  have hmod : b * n + r = a := Nat.div_add_mod a b
  have hrb : r < b := Nat.mod_lt a hb
  set v : ℚ := (a : ℚ) / b with hv
  have hva : v * b = a := div_mul_cancel₀ _ (ne_of_gt hbq)
  rcases Nat.eq_zero_or_pos r with hr0 | hr0
  · -- exact division: the quotient is an integer `n ≤ 2^53`
    have han : a = b * n := by omega
    have hvn : v = (n : ℚ) := by
      rw [hv, han]
      push_cast
      field_simp
    have hn53 : n ≤ 2 ^ 53 := le_trans (Nat.div_le_self a b) ha
    rw [hvn, rnd64_natCast hn53, pyint_eq_floor (by positivity), Int.floor_natCast]
  · -- inexact division: `n < v < n + 1`
    have ha0 : 0 < a := by omega
    have h0v : (0 : ℚ) < v := by positivity
    have hv1 : (n : ℚ) ≤ v := by
      rw [hv, le_div_iff₀ hbq]
      have h9 : n * b ≤ a := by
        have h8 : n * b = b * n := by ring
        omega
      exact_mod_cast h9
    have hv2 : v < (n : ℚ) + 1 := by
      rw [hv, div_lt_iff₀ hbq]
      have h9 : a < (n + 1) * b := by
        have h8 : (n + 1) * b = b * n + b := by ring
        omega
      exact_mod_cast h9
    rcases Nat.eq_zero_or_pos n with hn0 | hn0
    · -- quotient below 1: the rounded value stays in `[0, 1)`
      have hab2 : a < b := by
        rw [hn0, Nat.mul_zero, Nat.zero_add] at hmod
        omega
      set L : ℤ := Int.log 2 v with hL
      have hA : (2 : ℚ) ^ L ≤ v := by
        have := Int.zpow_log_le_self (b := 2) one_lt_two h0v
        exact_mod_cast this
      have hB : v < 2 ^ (L + 1) := by
        have := Int.lt_zpow_succ_log_self (b := 2) one_lt_two v
        exact_mod_cast this
      have hvlt1 : v < 1 := by
        rw [hv, div_lt_one hbq]
        exact_mod_cast hab2
      have hLneg : L ≤ -1 := by
        by_contra hc
        push_neg at hc
        have h0L : (0 : ℤ) ≤ L := by omega
        have : (1 : ℚ) ≤ 2 ^ L := one_le_zpow₀ (by norm_num) h0L
        linarith
      have hlt1 : rnd64 v < 1 := by
        rcases eq_or_lt_of_le hLneg with hL1 | hL2
        · -- `v ∈ [1/2, 1)`: need `v < 1 - 2^(-54)`, from `a ≤ 2^53 < b` bounds
          have hnat : 2 ^ 54 * a + b < 2 ^ 54 * b := by omega
          have hQ : (2 ^ 54 : ℚ) * a + b < 2 ^ 54 * b := by exact_mod_cast hnat
          have hQ2 : ((2 ^ 54 : ℚ) * v + 1) * b < 2 ^ 54 * b := by
            calc ((2 ^ 54 : ℚ) * v + 1) * b = 2 ^ 54 * (v * b) + b := by ring
            _ = 2 ^ 54 * a + b := by rw [hva]
            _ < 2 ^ 54 * b := hQ
          have hQ3 : (2 ^ 54 : ℚ) * v + 1 < 2 ^ 54 := (mul_lt_mul_right hbq).mp hQ2
          have hN : v * 2 ^ (52 - L) + 1 / 2 < ((2 ^ 53 : ℤ) : ℚ) := by
            rw [show (52 : ℤ) - L = 53 by omega]
            push_cast
            rw [show ((2 : ℚ) ^ (53 : ℤ)) = 2 ^ (53 : ℕ) by norm_num]
            linarith
          have := rnd64_lt h0v hA hB hN
          calc rnd64 v < ((2 ^ 53 : ℤ) : ℚ) * 2 ^ (L - 52) := this
          _ = 1 := by
            rw [show L - 52 = -53 by omega]
            push_cast
            rw [show ((2 : ℚ) ^ (-53 : ℤ)) = ((2 : ℚ) ^ (53 : ℕ))⁻¹ by
              rw [zpow_neg]
              norm_num]
            norm_num
        · -- `v < 1/2`: the rounded value is at most `2^(L+1) ≤ 1/2`
          have h54 : (54 : ℤ) ≤ 52 - L := by omega
          have hN : v * 2 ^ (52 - L) + 1 / 2 < ((2 ^ ((52 - L).toNat) : ℤ) : ℚ) := by
            have hs2 : v * 2 ^ (52 - L) < 2 ^ (53 : ℤ) := by
              calc v * 2 ^ (52 - L) < 2 ^ (L + 1) * 2 ^ (52 - L) :=
                (mul_lt_mul_right (by positivity)).mpr hB
              _ = 2 ^ (53 : ℤ) := by
                rw [← zpow_add₀ (by norm_num : (2 : ℚ) ≠ 0),
                  show L + 1 + (52 - L) = (53 : ℤ) by omega]
            have hs3 : (2 : ℚ) ^ (54 : ℤ) ≤ 2 ^ (52 - L) :=
              zpow_le_zpow_right₀ (by norm_num) h54
            have hs4 : ((2 ^ ((52 - L).toNat) : ℤ) : ℚ) = 2 ^ (52 - L) := by
              push_cast
              rw [← zpow_natCast (2 : ℚ) (52 - L).toNat, Int.toNat_of_nonneg (by omega)]
            rw [hs4]
            have hs5 : (2 : ℚ) ^ (53 : ℤ) + 1 / 2 < 2 ^ (54 : ℤ) := by
              rw [show ((2 : ℚ) ^ (53 : ℤ)) = 2 ^ (53 : ℕ) by norm_num,
                show ((2 : ℚ) ^ (54 : ℤ)) = 2 ^ (54 : ℕ) by norm_num]
              norm_num
            linarith
          have := rnd64_lt h0v hA hB hN
          calc rnd64 v < ((2 ^ ((52 - L).toNat) : ℤ) : ℚ) * 2 ^ (L - 52) := this
          _ = 1 := by
            push_cast
            rw [← zpow_natCast (2 : ℚ) (52 - L).toNat, Int.toNat_of_nonneg (by omega),
              ← zpow_add₀ (by norm_num : (2 : ℚ) ≠ 0),
              show 52 - L + (L - 52) = (0 : ℤ) by omega]
            norm_num
      have h0r : 0 ≤ rnd64 v := rnd64_nonneg v
      have hfl : ⌊rnd64 v⌋ = 0 := Int.floor_eq_zero_iff.mpr ⟨h0r, hlt1⟩
      rw [pyint_eq_floor h0r, hfl, hn0]
      norm_num
    · -- quotient at least 1: bracket the rounded value in `[n, n+1)`
      set f : ℕ := b - r with hf
      have hf1 : 1 ≤ f := by omega
      have hsum : a + f = (n + 1) * b := by
        have : (n + 1) * b = b * n + b := by ring
        omega
      set k : ℕ := Nat.log 2 n with hk
      have hk1 : 2 ^ k ≤ n := Nat.pow_log_le_self 2 (by omega)
      have hk2 : n < 2 ^ (k + 1) := Nat.lt_pow_succ_log_self one_lt_two n
      have hn53 : n < 2 ^ 53 := by
        have hnb : n * b + r = a := by
          have h8 : n * b = b * n := by ring
          omega
        have hle : n ≤ n * b := Nat.le_mul_of_pos_right n hb
        omega
      have hk52 : k ≤ 52 := by
        by_contra hgt
        have h53 : 53 ≤ k := by omega
        have : (2 : ℕ) ^ 53 ≤ 2 ^ k := Nat.pow_le_pow_right (by norm_num) h53
        omega
      have h2k : (2 : ℚ) ^ ((k : ℤ)) = ((2 ^ k : ℕ) : ℚ) := by
        rw [zpow_natCast]
        push_cast
        ring
      have hq1 : (2 : ℚ) ^ ((k : ℤ)) ≤ v := by
        rw [h2k]
        refine le_trans ?_ hv1
        exact_mod_cast hk1
      have h2k1 : (2 : ℚ) ^ ((k : ℤ) + 1) = ((2 ^ (k + 1) : ℕ) : ℚ) := by
        rw [show ((k : ℤ) + 1) = ((k + 1 : ℕ) : ℤ) by omega, zpow_natCast]
        push_cast
        ring
      have hq2 : v < 2 ^ ((k : ℤ) + 1) := by
        rw [h2k1]
        refine lt_of_lt_of_le hv2 ?_
        exact_mod_cast hk2
      have hzc : ((52 : ℤ) - k) = ((52 - k : ℕ) : ℤ) := by omega
      have hP : (2 : ℚ) ^ ((52 : ℤ) - k) = 2 ^ ((52 - k : ℕ)) := by
        rw [hzc, zpow_natCast]
      -- lower bound: `n` is on the representable grid below `v`
      have hMle : (((n : ℤ) * 2 ^ (52 - k) : ℤ) : ℚ) ≤ v * 2 ^ ((52 : ℤ) - k) := by
        rw [hP]
        push_cast
        exact mul_le_mul_of_nonneg_right hv1 (by positivity)
      have hlow : ((n : ℤ) * 2 ^ (52 - k) : ℤ) * ((2 : ℚ) ^ ((k : ℤ) - 52)) ≤ rnd64 v :=
        rnd64_ge h0v hq1 hq2 hMle
      have hlowval : (((n : ℤ) * 2 ^ (52 - k) : ℤ) : ℚ) * ((2 : ℚ) ^ ((k : ℤ) - 52)) = n := by
        push_cast
        rw [mul_assoc, ← zpow_natCast (2 : ℚ) (52 - k), ← hzc, zpow_cancel_52, mul_one]
      -- upper bound: `a ≤ 2^53` forces the scaled quotient to sit more than
      -- half a unit below the next grid integer `(n+1) * 2^(52-k)`
      have hkey : b < f * 2 ^ (53 - k) := by
        by_contra hcon
        push_neg at hcon
        have h1 : (n + 1) * (f * 2 ^ (53 - k)) ≤ (n + 1) * b :=
          Nat.mul_le_mul_left _ hcon
        have h2 : (2 ^ k + 1) * (f * 2 ^ (53 - k)) ≤ (n + 1) * (f * 2 ^ (53 - k)) :=
          Nat.mul_le_mul_right _ (by omega)
        have hpow : (2 : ℕ) ^ k * 2 ^ (53 - k) = 2 ^ 53 := by
          rw [← pow_add]
          congr 1
          omega
        have h3 : (2 ^ k + 1) * (f * 2 ^ (53 - k)) = f * 2 ^ 53 + f * 2 ^ (53 - k) := by
          rw [← hpow]
          ring
        have h4 : 2 ^ 53 ≤ f * 2 ^ 53 := Nat.le_mul_of_pos_left _ hf1
        have h5 : 2 ≤ f * 2 ^ (53 - k) := by
          have : (2 : ℕ) ^ 1 ≤ 2 ^ (53 - k) := Nat.pow_le_pow_right (by norm_num) (by omega)
          calc (2 : ℕ) = 1 * 2 ^ 1 := by norm_num
          _ ≤ f * 2 ^ (53 - k) := Nat.mul_le_mul hf1 this
        omega
      have hQkey : (b : ℚ) < (f : ℚ) * (2 * 2 ^ ((52 - k : ℕ))) := by
        have hcast : (b : ℚ) < ((f * 2 ^ (53 - k) : ℕ) : ℚ) := by exact_mod_cast hkey
        have hsplit : ((f * 2 ^ (53 - k) : ℕ) : ℚ) = (f : ℚ) * (2 * 2 ^ ((52 - k : ℕ))) := by
          push_cast
          rw [show (53 - k) = (52 - k) + 1 by omega, pow_succ]
          ring
        rw [← hsplit]
        exact hcast
      have hsumQ : (a : ℚ) + f = ((n : ℚ) + 1) * b := by exact_mod_cast hsum
      have hdelta : (0 : ℚ) < (n : ℚ) + 1 - v := by linarith
      have hfb : ((n : ℚ) + 1 - v) * b = f := by
        have : ((n : ℚ) + 1) * b - v * b = f := by
          rw [hva]
          linarith
        linarith [this, sub_mul ((n : ℚ) + 1) v (b : ℚ)]
      have hfQ : (0 : ℚ) < f := by exact_mod_cast hf1
      have hup : v * 2 ^ ((52 : ℤ) - k) + 1 / 2 < ((((n : ℤ) + 1) * 2 ^ (52 - k) : ℤ) : ℚ) := by
        have hlt : ((n : ℚ) + 1 - v) * b < ((n : ℚ) + 1 - v) * ((f : ℚ) * (2 * 2 ^ ((52 - k : ℕ)))) :=
          (mul_lt_mul_left hdelta).mpr hQkey
        have h6 : (f : ℚ) < ((n : ℚ) + 1 - v) * ((f : ℚ) * (2 * 2 ^ ((52 - k : ℕ)))) := by
          rw [hfb] at hlt
          exact hlt
        have h7 : 1 / 2 < ((n : ℚ) + 1 - v) * 2 ^ ((52 - k : ℕ)) := by
          by_contra hcon
          push_neg at hcon
          have h8 : ((n : ℚ) + 1 - v) * ((f : ℚ) * (2 * 2 ^ ((52 - k : ℕ))))
              = (2 * f) * (((n : ℚ) + 1 - v) * 2 ^ ((52 - k : ℕ))) := by ring
          have h9 : (2 * (f : ℚ)) * (((n : ℚ) + 1 - v) * 2 ^ ((52 - k : ℕ)))
              ≤ (2 * (f : ℚ)) * (1 / 2) :=
            mul_le_mul_of_nonneg_left hcon (by positivity)
          rw [h8] at h6
          linarith
        rw [hP]
        push_cast
        linarith
      have hhigh : rnd64 v < ((((n : ℤ) + 1) * 2 ^ (52 - k) : ℤ) : ℚ) * ((2 : ℚ) ^ ((k : ℤ) - 52)) :=
        rnd64_lt h0v hq1 hq2 hup
      have hhighval : ((((n : ℤ) + 1) * 2 ^ (52 - k) : ℤ) : ℚ) * ((2 : ℚ) ^ ((k : ℤ) - 52))
          = (n : ℚ) + 1 := by
        push_cast
        rw [mul_assoc, ← zpow_natCast (2 : ℚ) (52 - k), ← hzc, zpow_cancel_52, mul_one]
      have h0r : 0 ≤ rnd64 v := rnd64_nonneg v
      have hfl : ⌊rnd64 v⌋ = (n : ℤ) := by
        rw [Int.floor_eq_iff]
        constructor
        · calc ((n : ℤ) : ℚ) = (n : ℚ) := by push_cast; ring
          _ = (((n : ℤ) * 2 ^ (52 - k) : ℤ) : ℚ) * ((2 : ℚ) ^ ((k : ℤ) - 52)) := hlowval.symm
          _ ≤ rnd64 v := hlow
        · calc rnd64 v < ((((n : ℤ) + 1) * 2 ^ (52 - k) : ℤ) : ℚ) * ((2 : ℚ) ^ ((k : ℤ) - 52)) := hhigh
          _ = (n : ℚ) + 1 := hhighval
          _ = ((n : ℤ) : ℚ) + 1 := by push_cast; ring
      rw [pyint_eq_floor h0r, hfl]

/-- `new_height` with `W > 0` and a realistically bounded numerator computes
the exact rational floor `⌊1200 * H / W⌋`. -/
theorem new_height_eq {W H : ℕ} (hW : 0 < W) (hH : 1200 * H ≤ 2 ^ 53) :
    new_height W H = (1200 * H / W : ℕ) := by
  have h := pyint_rnd64_div (a := 1200 * H) (b := W) hW hH
  rw [show ((1200 * H : ℕ) : ℚ) = (1200 * (H : ℚ)) by push_cast; ring] at h
  rw [new_height]
  exact h

theorem new_height_nonneg (W H : ℕ) : 0 ≤ new_height W H := by
  rw [new_height, pyint_eq_floor (rnd64_nonneg _)]
  exact Int.floor_nonneg.mpr (rnd64_nonneg _)

/-- A quotient of at least 1 rounds to a binary64 value of at least 1. -/
theorem rnd64_ge_one {q : ℚ} (h1q : 1 ≤ q) : 1 ≤ rnd64 q := by
  have h0 : (0 : ℚ) < q := lt_of_lt_of_le one_pos h1q
  have hA : (2 : ℚ) ^ (Int.log 2 q) ≤ q := by
    have := Int.zpow_log_le_self (b := 2) one_lt_two h0
    exact_mod_cast this
  have hB : q < 2 ^ (Int.log 2 q + 1) := by
    have := Int.lt_zpow_succ_log_self (b := 2) one_lt_two q
    exact_mod_cast this
  have hL0 : 0 ≤ Int.log 2 q := by
    by_contra hc
    push_neg at hc
    have hle : Int.log 2 q + 1 ≤ 0 := by omega
    have h2 : (2 : ℚ) ^ (Int.log 2 q + 1) ≤ 2 ^ (0 : ℤ) :=
      zpow_le_zpow_right₀ one_le_two hle
    rw [zpow_zero] at h2
    linarith
  have hM : ((2 ^ 52 : ℤ) : ℚ) ≤ q * 2 ^ (52 - Int.log 2 q) := by
    have hmul : (2 : ℚ) ^ (Int.log 2 q) * 2 ^ (52 - Int.log 2 q)
        ≤ q * 2 ^ (52 - Int.log 2 q) :=
      mul_le_mul_of_nonneg_right hA (by positivity)
    have hE : (2 : ℚ) ^ (Int.log 2 q) * 2 ^ (52 - Int.log 2 q)
        = ((2 ^ 52 : ℤ) : ℚ) := by
      rw [← zpow_add₀ (by norm_num : (2 : ℚ) ≠ 0),
        show Int.log 2 q + (52 - Int.log 2 q) = (52 : ℤ) by omega]
      norm_num
    rw [← hE]
    exact hmul
  have hge := rnd64_ge h0 hA hB hM
  have hE2 : ((2 ^ 52 : ℤ) : ℚ) * 2 ^ (Int.log 2 q - 52) = 2 ^ (Int.log 2 q) := by
    rw [show ((2 ^ 52 : ℤ) : ℚ) = (2 : ℚ) ^ (52 : ℤ) by norm_num,
      ← zpow_add₀ (by norm_num : (2 : ℚ) ≠ 0),
      show (52 : ℤ) + (Int.log 2 q - 52) = Int.log 2 q by omega]
  rw [hE2] at hge
  calc (1 : ℚ) = 2 ^ (0 : ℤ) := by norm_num
  _ ≤ 2 ^ (Int.log 2 q) := zpow_le_zpow_right₀ one_le_two hL0
  _ ≤ rnd64 q := hge

/-- If the exact quotient `1200 * H / W` is at least 1, Python's computed
target height is at least 1 as well. -/
theorem new_height_pos {W H : ℕ}
    (hge : (1 : ℚ) ≤ 1200 * (H : ℚ) / (W : ℚ)) : 0 < new_height W H := by
  rw [new_height, pyint_eq_floor (rnd64_nonneg _)]
  have h1 : (1 : ℚ) ≤ rnd64 (1200 * (H : ℚ) / (W : ℚ)) := rnd64_ge_one hge
  have h2 : (1 : ℤ) ≤ ⌊rnd64 (1200 * (H : ℚ) / (W : ℚ))⌋ :=
    Int.le_floor.mpr (by exact_mod_cast h1)
  omega

/-- In-memory raster image as PIL presents it: dimensions, a mode string
(pixel format / channel layout, e.g. `"RGB"`, `"RGBA"`), and pixel data.
A pixel value bundles all channels into one natural number; reading outside
the `width × height` extent yields `0` (black / fully transparent), the
fill value PIL uses for out-of-bounds areas. -/
structure PILImage where
  width : ℕ
  height : ℕ
  mode : String
  px : ℕ → ℕ → ℕ

/-- A resampling filter: given the source image, the target dimensions and a
target coordinate, produce the resampled pixel.  The script always passes
`Image.LANCZOS`; the convolution itself is kept as a parameter, since no
claim depends on the filter's numeric output. -/
def Kernel : Type := PILImage → ℕ → ℕ → ℕ → ℕ → ℕ

/-- The buffer produced by a successful
`image.resize((w, h), resample=Image.LANCZOS)`: exactly the requested
dimensions, same mode, contents given by the resampling filter.  Pillow's
`resize` raises `ValueError("height and width must be > 0")` when a
requested dimension is zero; that guard is modelled by `resizeE`, so this
function denotes only the successfully built buffer (the pipeline
evaluates it only when both dimensions are at least 1). -/
def resize (ker : Kernel) (img : PILImage) (w h : ℕ) : PILImage :=
  { width := w
    height := h
    mode := img.mode
    px := fun x y => if x < w ∧ y < h then ker img w h x y else 0 }

/-- `image.crop((left, top, right, bottom))`: a new buffer of dimensions
`(right - left) × (bottom - top)`, same mode.  Per PIL's documented
semantics the crop box may extend beyond the source image; the region
outside the source is zero-filled and the call never raises. -/
def crop (img : PILImage) (left top right bottom : ℕ) : PILImage :=
  { width := right - left
    height := bottom - top
    mode := img.mode
    px := fun x y =>
      if x < right - left ∧ y < bottom - top ∧
          x + left < img.width ∧ y + top < img.height then
        img.px (x + left) (y + top)
      else 0 }

/-- `image.resize((w, h), resample=Image.LANCZOS)` including Pillow's
dimension guard: raises `ValueError("height and width must be > 0")` when
either requested dimension is zero, and otherwise returns the new buffer
`resize ker img w h`. -/
def resizeE (ker : Kernel) (img : PILImage) (w h : ℕ) : Except PipeError PILImage :=
  if w = 0 ∨ h = 0 then .error .valueError else .ok (resize ker img w h)

/-- The filesystem as far as the script touches it: file contents by name. -/
def FS : Type := String → Option (List ℕ)

/-- Writing one file: the single effect of `cropped_image.save(...)`. -/
def fsWrite (fs : FS) (name : String) (data : List ℕ) : FS :=
  fun m => if m = name then some data else fs m

/-- The whole script, end to end: open `ChangeList.png` (decode failure or a
missing file raise before anything else happens), compute
`new_height = int(1200 * H / W)` (raising `ZeroDivisionError` iff `W = 0`),
resize to `(1200, new_height)` (raising `ValueError` iff the computed
height is zero, per Pillow's dimension guard in `resizeE`), crop
`(0, 0, 1200, 630)`, and save to `ChangeList_crop.png`.  The PNG codec
(`decode`/`encode`) and the Lanczos filter are parameters.  Returns the
uncaught error the process dies with (if any) together with the filesystem
afterwards; the only write is the final save, so on every failure the
filesystem is returned untouched.  `new_height` is nonnegative
(`new_height_nonneg`), so `Int.toNat` is exact. -/
def runScript (ker : Kernel) (decode : List ℕ → Option PILImage)
    (encode : PILImage → List ℕ) (fs : FS) : Option PipeError × FS :=
  match fs "ChangeList.png" with
  | none => (some .decodeError, fs)
  | some bytes =>
    match decode bytes with
    | none => (some .decodeError, fs)
    | some image =>
      if image.width = 0 then (some .domainError, fs)
      else
        match resizeE ker image 1200 (new_height image.width image.height).toNat with
        | .error e => (some e, fs)
        | .ok resized_image =>
          let cropped_image := crop resized_image 0 0 1200 630
          (none, fsWrite fs "ChangeList_crop.png" (encode cropped_image))

theorem runScript_noFile (ker : Kernel) (decode : List ℕ → Option PILImage)
    (encode : PILImage → List ℕ) (fs : FS)
    (hfs : fs "ChangeList.png" = none) :
    runScript ker decode encode fs = (some .decodeError, fs) := by
  simp only [runScript, hfs]

theorem runScript_badDecode (ker : Kernel) (decode : List ℕ → Option PILImage)
    (encode : PILImage → List ℕ) (fs : FS) (bytes : List ℕ)
    (hfs : fs "ChangeList.png" = some bytes) (hdec : decode bytes = none) :
    runScript ker decode encode fs = (some .decodeError, fs) := by
  simp only [runScript, hfs, hdec]

theorem runScript_zeroWidth (ker : Kernel) (decode : List ℕ → Option PILImage)
    (encode : PILImage → List ℕ) (fs : FS) (bytes : List ℕ) (img : PILImage)
    (hfs : fs "ChangeList.png" = some bytes) (hdec : decode bytes = some img)
    (hW : img.width = 0) :
    runScript ker decode encode fs = (some .domainError, fs) := by
  simp only [runScript, hfs, hdec]
  rw [if_pos hW]

theorem runScript_zeroHeight (ker : Kernel) (decode : List ℕ → Option PILImage)
    (encode : PILImage → List ℕ) (fs : FS) (bytes : List ℕ) (img : PILImage)
    (hfs : fs "ChangeList.png" = some bytes) (hdec : decode bytes = some img)
    (hW : img.width ≠ 0)
    (hnh : (new_height img.width img.height).toNat = 0) :
    runScript ker decode encode fs = (some .valueError, fs) := by
  simp only [runScript, hfs, hdec]
  rw [if_neg hW, resizeE, if_pos (Or.inr hnh)]

theorem runScript_ok (ker : Kernel) (decode : List ℕ → Option PILImage)
    (encode : PILImage → List ℕ) (fs : FS) (bytes : List ℕ) (img : PILImage)
    (hfs : fs "ChangeList.png" = some bytes) (hdec : decode bytes = some img)
    (hW : img.width ≠ 0)
    (hnh : (new_height img.width img.height).toNat ≠ 0) :
    runScript ker decode encode fs =
      (none, fsWrite fs "ChangeList_crop.png"
        (encode (crop (resize ker img 1200
          (new_height img.width img.height).toNat) 0 0 1200 630))) := by
  simp only [runScript, hfs, hdec]
  rw [if_neg hW, resizeE, if_neg (by omega)]

/-- A concrete decoded image used by witnesses and counterexamples. -/
def mkImg (w h : ℕ) : PILImage :=
  { width := w, height := h, mode := "RGB", px := fun _ _ => 0 }

/-- A trivial concrete resampling kernel for witnesses. -/
def kerZero : Kernel := fun _ _ _ _ _ => 0

/-- A concrete codec that decodes any byte string to a fixed image. -/
def decodeConst (w h : ℕ) : List ℕ → Option PILImage := fun _ => some (mkImg w h)

/-- A concrete encoder recording the image dimensions. -/
def encodeDims : PILImage → List ℕ := fun img => [img.width, img.height]

/-- A filesystem holding only the source file. -/
def fsSrc : FS := fun m => if m = "ChangeList.png" then some [0] else none

/-- An empty filesystem: the source file is missing. -/
def fsEmpty : FS := fun _ => none

/-- C1: for a decodable source with `W > 0` and aspect ratio
`H/W ≥ 0.525 = 21/40`, the pipeline succeeds and the file written is the
encoding of an image of dimensions exactly 1200×630 whose mode (pixel
format / channel count, alpha included) equals that of the resampled
source, which is the source image's own mode. -/
theorem c1_output_format (ker : Kernel) (decode : List ℕ → Option PILImage)
    (encode : PILImage → List ℕ) (fs : FS) (bytes : List ℕ) (img : PILImage)
    (hfs : fs "ChangeList.png" = some bytes) (hdec : decode bytes = some img)
    (hW : 0 < img.width)
    (hratio : (21 : ℚ) / 40 ≤ (img.height : ℚ) / (img.width : ℚ)) :
    (runScript ker decode encode fs).1 = none ∧
    ∃ out : PILImage,
      (runScript ker decode encode fs).2 "ChangeList_crop.png" = some (encode out) ∧
      out.width = 1200 ∧ out.height = 630 ∧
      out.mode = (resize ker img 1200 (new_height img.width img.height).toNat).mode ∧
      out.mode = img.mode := by
  have hge : (1 : ℚ) ≤ 1200 * (img.height : ℚ) / (img.width : ℚ) := by
    rw [mul_div_assoc]
    linarith
  have hpos := new_height_pos hge
  rw [runScript_ok ker decode encode fs bytes img hfs hdec (by omega) (by omega)]
  refine ⟨rfl,
    crop (resize ker img 1200 (new_height img.width img.height).toNat) 0 0 1200 630,
    ?_, rfl, rfl, rfl, rfl⟩
  simp [fsWrite]

theorem c1_output_format_witness :
    fsSrc "ChangeList.png" = some [0] ∧
    decodeConst 1200 630 [0] = some (mkImg 1200 630) ∧
    0 < (mkImg 1200 630).width ∧
    (21 : ℚ) / 40 ≤ ((mkImg 1200 630).height : ℚ) / ((mkImg 1200 630).width : ℚ) ∧
    ((runScript kerZero (decodeConst 1200 630) encodeDims fsSrc).1 = none ∧
      ∃ out : PILImage,
        (runScript kerZero (decodeConst 1200 630) encodeDims fsSrc).2
            "ChangeList_crop.png" = some (encodeDims out) ∧
        out.width = 1200 ∧ out.height = 630 ∧
        out.mode = (resize kerZero (mkImg 1200 630) 1200
          (new_height (mkImg 1200 630).width (mkImg 1200 630).height).toNat).mode ∧
        out.mode = (mkImg 1200 630).mode) :=
  ⟨by simp [fsSrc], rfl, by decide, by norm_num [mkImg],
    c1_output_format kerZero (decodeConst 1200 630) encodeDims fsSrc [0]
      (mkImg 1200 630) (by simp [fsSrc]) rfl (by decide) (by norm_num [mkImg])⟩

/-- Evaluation of the correctly rounded binary64 quotient at the `C3`
counterexample: the exact value `2^52 + 3/2` sits at a representability tie
and rounds up to the even significand, one above its floor. -/
theorem rnd64_tie_value :
    rnd64 ((1200 * ((1801439850948199 : ℕ) : ℚ)) / ((480 : ℕ) : ℚ)) =
      4503599627370498 := by
  have hq : (1200 * ((1801439850948199 : ℕ) : ℚ)) / ((480 : ℕ) : ℚ)
      = 4503599627370497 + 1 / 2 := by norm_num
  rw [hq]
  have h0 : (0 : ℚ) < 4503599627370497 + 1 / 2 := by norm_num
  have h1 : (2 : ℚ) ^ (52 : ℤ) ≤ 4503599627370497 + 1 / 2 := by
    rw [show ((2 : ℚ) ^ (52 : ℤ)) = ((2 : ℚ) ^ (52 : ℕ)) by norm_num]
    norm_num
  have h2 : (4503599627370497 + 1 / 2 : ℚ) < 2 ^ ((52 : ℤ) + 1) := by
    rw [show ((52 : ℤ) + 1) = (53 : ℤ) by norm_num,
      show ((2 : ℚ) ^ (53 : ℤ)) = ((2 : ℚ) ^ (53 : ℕ)) by norm_num]
    norm_num
  rw [rnd64_eq h0 h1 h2, show (52 - 52 : ℤ) = 0 by norm_num, zpow_zero,
    mul_one, mul_one]
  have hfloor : ⌊(4503599627370497 + 1 / 2 : ℚ)⌋ = 4503599627370497 := by
    rw [Int.floor_eq_iff]
    constructor
    · norm_num
    · norm_num
  have hrhe : roundHalfEven (4503599627370497 + 1 / 2 : ℚ) = 4503599627370498 := by
    unfold roundHalfEven
    rw [hfloor]
    norm_num
  rw [hrhe]
  norm_num

/-- C3 counterexample: at source dimensions `W = 480`,
`H = 1801439850948199`, Python's `int(1200 * H / W)` is `2^52 + 2`, one
more than the exact floor `2^52 + 1`, because the true quotient
`2^52 + 1.5` rounds to the nearest even significand. -/
theorem c3_counterexample :
    new_height 480 1801439850948199 = 4503599627370498 ∧
    (1200 * 1801439850948199) / 480 = 4503599627370497 ∧
    new_height 480 1801439850948199 ≠
      (((1200 * 1801439850948199) / 480 : ℕ) : ℤ) := by
  have h1 : new_height 480 1801439850948199 = 4503599627370498 := by
    rw [new_height, rnd64_tie_value, pyint_eq_floor (by norm_num),
      show (4503599627370498 : ℚ) = ((4503599627370498 : ℤ) : ℚ) by norm_num,
      Int.floor_intCast]
  have h2 : (1200 * 1801439850948199) / 480 = 4503599627370497 := by norm_num
  refine ⟨h1, h2, ?_⟩
  rw [h1, h2]
  norm_num

/-- C3 (amended): `int(1200 * H / W)` equals the exact integer floor
`⌊1200 × H / W⌋` whenever the numerator `1200 × H` is at most `2^53`
(true of every realistic image, up to heights around `7.5 × 10^12`); the
resized buffer then has dimensions `(1200, Th)`.  Beyond that bound the
float quotient can round up past the floor (see the counterexample). -/
theorem c3_amended (W H : ℕ) (hW : 0 < W) (hH : 1200 * H ≤ 2 ^ 53) :
    new_height W H = (1200 * H / W : ℕ) ∧
    ∀ (ker : Kernel) (img : PILImage),
      (resize ker img 1200 (new_height W H).toNat).width = 1200 ∧
      (resize ker img 1200 (new_height W H).toNat).height = (new_height W H).toNat :=
  ⟨new_height_eq hW hH, fun _ _ => ⟨rfl, rfl⟩⟩

theorem c3_amended_witness :
    0 < 1200 ∧ 1200 * 630 ≤ 2 ^ 53 ∧
    new_height 1200 630 = (1200 * 630 / 1200 : ℕ) :=
  ⟨by decide, by decide, (c3_amended 1200 630 (by decide) (by decide)).1⟩

/-- C2 counterexample: on a 1000×400 source (resized height 480 < 630) the
pipeline does NOT fail: no error is raised, and a 1200×630 output file is
written — PIL's `crop` pads past the bottom edge instead of raising. -/
theorem c2_counterexample :
    new_height 1000 400 = 480 ∧
    (runScript kerZero (decodeConst 1000 400) encodeDims fsSrc).1 = none ∧
    (runScript kerZero (decodeConst 1000 400) encodeDims fsSrc).2
      "ChangeList_crop.png" = some [1200, 630] := by
  have hnh : new_height 1000 400 = 480 := by
    rw [new_height_eq (by norm_num) (by norm_num)]
    norm_num
  have hnh' : new_height (mkImg 1000 400).width (mkImg 1000 400).height = 480 := hnh
  have hrun := runScript_ok kerZero (decodeConst 1000 400) encodeDims fsSrc [0]
    (mkImg 1000 400) (by simp [fsSrc]) rfl (by decide) (by rw [hnh']; decide)
  rw [hrun]
  refine ⟨hnh, rfl, ?_⟩
  simp [fsWrite, encodeDims, crop]

/-- C2 (amended): the crop step itself never raises.  For every decodable
source with `W > 0` whose computed resize height `Th = int(1200*H/W)` is at
least 1 — in particular every `Th` in `[1, 630)`, such as the claim's
1000×400 source with `Th = 480` — the process reaches the save step with no
error and writes the encoding of the cropped buffer, which measures exactly
1200×630.  (When `Th = 0` the process dies earlier, at the resize step with
Pillow's `ValueError` — still not a crop bounds error.) -/
theorem c2_amended (ker : Kernel) (decode : List ℕ → Option PILImage)
    (encode : PILImage → List ℕ) (fs : FS) (bytes : List ℕ) (img : PILImage)
    (hfs : fs "ChangeList.png" = some bytes) (hdec : decode bytes = some img)
    (hW : 0 < img.width) (hTh : 0 < new_height img.width img.height) :
    (runScript ker decode encode fs).1 = none ∧
    (runScript ker decode encode fs).2 "ChangeList_crop.png" =
      some (encode (crop (resize ker img 1200
        (new_height img.width img.height).toNat) 0 0 1200 630)) ∧
    (crop (resize ker img 1200
      (new_height img.width img.height).toNat) 0 0 1200 630).width = 1200 ∧
    (crop (resize ker img 1200
      (new_height img.width img.height).toNat) 0 0 1200 630).height = 630 := by
  rw [runScript_ok ker decode encode fs bytes img hfs hdec (by omega) (by omega)]
  refine ⟨rfl, ?_, rfl, rfl⟩
  simp [fsWrite]

theorem c2_amended_witness :
    fsSrc "ChangeList.png" = some [0] ∧
    decodeConst 1000 400 [0] = some (mkImg 1000 400) ∧
    0 < (mkImg 1000 400).width ∧
    0 < new_height 1000 400 ∧
    ((runScript kerZero (decodeConst 1000 400) encodeDims fsSrc).1 = none ∧
      (runScript kerZero (decodeConst 1000 400) encodeDims fsSrc).2
        "ChangeList_crop.png" =
        some (encodeDims (crop (resize kerZero (mkImg 1000 400) 1200
          (new_height (mkImg 1000 400).width (mkImg 1000 400).height).toNat)
          0 0 1200 630)) ∧
      (crop (resize kerZero (mkImg 1000 400) 1200
        (new_height (mkImg 1000 400).width (mkImg 1000 400).height).toNat)
        0 0 1200 630).width = 1200 ∧
      (crop (resize kerZero (mkImg 1000 400) 1200
        (new_height (mkImg 1000 400).width (mkImg 1000 400).height).toNat)
        0 0 1200 630).height = 630) :=
  have hpos : 0 < new_height 1000 400 := by
    rw [new_height_eq (by norm_num) (by norm_num)]
    norm_num
  ⟨by simp [fsSrc], rfl, by decide, hpos,
    c2_amended kerZero (decodeConst 1000 400) encodeDims fsSrc [0]
      (mkImg 1000 400) (by simp [fsSrc]) rfl (by decide) hpos⟩

/-- C4 counterexample: a source with `H = 0` but `W = 1` does not raise in
the resize-ratio computation — `int(1200 * 0 / 1)` evaluates to `0`. -/
theorem c4_counterexample : new_heightE 1 0 = Except.ok 0 := by
  rw [new_heightE, if_neg (by norm_num), new_height_eq (by norm_num) (by norm_num)]
  norm_num

/-- C4 (amended): the division in the resize-ratio computation raises
`ZeroDivisionError` exactly when `W = 0`; a zero height with `W > 0` gives
quotient `0` without an error. -/
theorem c4_amended (W H : ℕ) :
    new_heightE W H = Except.error PipeError.domainError ↔ W = 0 := by
  constructor
  · intro h
    by_contra hW
    rw [new_heightE, if_neg hW] at h
    exact Except.noConfusion h
  · intro h
    rw [new_heightE, if_pos h]

/-- C5: the pipeline is deterministic — it is a pure function of the
source bytes (and of the fixed codec and filter), with no dependence on
time, randomness or environment, so two runs over the same unchanged
filesystem produce identical results, hence byte-identical output files. -/
theorem c5_deterministic (ker : Kernel) (decode : List ℕ → Option PILImage)
    (encode : PILImage → List ℕ) (fs₁ fs₂ : FS) (h : fs₁ = fs₂) :
    runScript ker decode encode fs₁ = runScript ker decode encode fs₂ := by
  rw [h]

theorem c5_deterministic_witness :
    fsSrc = fsSrc ∧
    runScript kerZero (decodeConst 1200 630) encodeDims fsSrc =
      runScript kerZero (decodeConst 1200 630) encodeDims fsSrc :=
  ⟨rfl, c5_deterministic kerZero (decodeConst 1200 630) encodeDims fsSrc fsSrc rfl⟩

/-- C6: failure atomicity of the destination — whenever the pipeline stops
with an error before the save step (missing file, undecodable source, zero
width), the filesystem is returned exactly as it was: no output file is
created and a pre-existing `ChangeList_crop.png` is untouched. -/
theorem c6_failure_atomicity (ker : Kernel) (decode : List ℕ → Option PILImage)
    (encode : PILImage → List ℕ) (fs : FS) (e : PipeError)
    (herr : (runScript ker decode encode fs).1 = some e) :
    (runScript ker decode encode fs).2 = fs := by
  rcases hfs : fs "ChangeList.png" with _ | bytes
  · rw [runScript_noFile ker decode encode fs hfs]
  · rcases hdec : decode bytes with _ | img
    · rw [runScript_badDecode ker decode encode fs bytes hfs hdec]
    · rcases Nat.eq_zero_or_pos img.width with h0 | h0
      · rw [runScript_zeroWidth ker decode encode fs bytes img hfs hdec h0]
      · rcases Nat.eq_zero_or_pos (new_height img.width img.height).toNat with hz | hz
        · rw [runScript_zeroHeight ker decode encode fs bytes img hfs hdec
            (by omega) hz]
        · rw [runScript_ok ker decode encode fs bytes img hfs hdec
            (by omega) (by omega)] at herr
          exact absurd herr (by simp)

theorem c6_failure_atomicity_witness :
    (runScript kerZero (decodeConst 1 1) encodeDims fsEmpty).1 =
      some PipeError.decodeError ∧
    (runScript kerZero (decodeConst 1 1) encodeDims fsEmpty).2 = fsEmpty :=
  ⟨rfl, c6_failure_atomicity kerZero (decodeConst 1 1) encodeDims fsEmpty
    PipeError.decodeError rfl⟩

/-- Cropping the full 1200×630 frame of a freshly resized 1200×630 buffer
reproduces that buffer exactly, pixel function included (pixels outside the
extent are the canonical `0` on both sides). -/
theorem crop_resize_full (ker : Kernel) (img : PILImage) :
    crop (resize ker img 1200 630) 0 0 1200 630 = resize ker img 1200 630 := by
  unfold crop resize
  simp only [PILImage.mk.injEq, Nat.sub_zero, Nat.add_zero]
  refine ⟨trivial, trivial, trivial, ?_⟩
  funext x y
  by_cases hx : x < 1200 <;> by_cases hy : y < 630 <;> simp [hx, hy]

/-- C7: for a source whose dimensions are an exact positive multiple of
1200×630 (1200×630 itself, 2400×1260, ...), the resized buffer is exactly
1200×630 — the target height computation is exact here, for any multiple —
and the crop takes the whole frame, so the saved image IS the resized
buffer. -/
theorem c7_exact_multiple (ker : Kernel) (img : PILImage) (m : ℕ) (hm : 0 < m)
    (hw : img.width = 1200 * m) (hh : img.height = 630 * m) :
    (resize ker img 1200 (new_height img.width img.height).toNat).width = 1200 ∧
    (resize ker img 1200 (new_height img.width img.height).toNat).height = 630 ∧
    crop (resize ker img 1200 (new_height img.width img.height).toNat)
        0 0 1200 630 =
      resize ker img 1200 (new_height img.width img.height).toNat := by
  have hnh : new_height img.width img.height = 630 := by
    rw [hw, hh, new_height]
    have hq : (1200 * ((630 * m : ℕ) : ℚ)) / ((1200 * m : ℕ) : ℚ) = ((630 : ℕ) : ℚ) := by
      have hm0 : (m : ℚ) ≠ 0 := by
        exact_mod_cast Nat.pos_iff_ne_zero.mp hm
      push_cast
      field_simp
      ring
    rw [hq, rnd64_natCast (by norm_num), pyint_eq_floor (by positivity),
      Int.floor_natCast]
    norm_num
  rw [hnh]
  exact ⟨rfl, rfl, crop_resize_full ker img⟩

theorem c7_exact_multiple_witness :
    0 < 2 ∧ (mkImg 2400 1260).width = 1200 * 2 ∧ (mkImg 2400 1260).height = 630 * 2 ∧
    ((resize kerZero (mkImg 2400 1260) 1200
        (new_height (mkImg 2400 1260).width (mkImg 2400 1260).height).toNat).width = 1200 ∧
      (resize kerZero (mkImg 2400 1260) 1200
        (new_height (mkImg 2400 1260).width (mkImg 2400 1260).height).toNat).height = 630 ∧
      crop (resize kerZero (mkImg 2400 1260) 1200
          (new_height (mkImg 2400 1260).width (mkImg 2400 1260).height).toNat)
          0 0 1200 630 =
        resize kerZero (mkImg 2400 1260) 1200
          (new_height (mkImg 2400 1260).width (mkImg 2400 1260).height).toNat) :=
  ⟨by decide, rfl, rfl,
    c7_exact_multiple kerZero (mkImg 2400 1260) 2 (by decide) rfl rfl⟩

/-- C8 counterexample: a decodable 2400×1 source lies in the claim's domain
(`W > 0`, aspect ratio `1/2400 < 0.525`), but its computed resize height is
`int(1200 * 1 / 2400) = int(0.5) = 0`, so the pipeline dies at the resize
step with Pillow's `ValueError("height and width must be > 0")`: the save
step does not run and no output file is written. -/
theorem c8_counterexample :
    ((mkImg 2400 1).height : ℚ) / ((mkImg 2400 1).width : ℚ) < 21 / 40 ∧
    (runScript kerZero (decodeConst 2400 1) encodeDims fsSrc).1 =
      some PipeError.valueError ∧
    (runScript kerZero (decodeConst 2400 1) encodeDims fsSrc).2
      "ChangeList_crop.png" = none := by
  have hnh : new_height 2400 1 = 0 := by
    rw [new_height_eq (by norm_num) (by norm_num)]
    norm_num
  have hnh' : new_height (mkImg 2400 1).width (mkImg 2400 1).height = 0 := hnh
  have hrun := runScript_zeroHeight kerZero (decodeConst 2400 1) encodeDims fsSrc
    [0] (mkImg 2400 1) (by simp [fsSrc]) rfl (by decide) (by rw [hnh']; rfl)
  rw [hrun]
  refine ⟨by norm_num [mkImg], rfl, by simp [fsSrc]⟩

/-- C8 (amended): for a source with `W > 0`, aspect ratio below `0.525`,
and computed resize height `Th = int(1200*H/W)` at least 1, the crop call
does not raise: the pipeline completes, writes the encoding of the cropped
buffer — a full 1200×630 image — and every row at or below the resized
height `Th` is zero-filled padding.  (When `Th = 0`, i.e. the ratio is
below roughly `1/1200`, the pipeline instead dies at the resize step with
Pillow's `ValueError` and writes nothing — see the counterexample.) -/
theorem c8_amended (ker : Kernel) (decode : List ℕ → Option PILImage)
    (encode : PILImage → List ℕ) (fs : FS) (bytes : List ℕ) (img : PILImage)
    (hfs : fs "ChangeList.png" = some bytes) (hdec : decode bytes = some img)
    (hW : 0 < img.width)
    (hratio : (img.height : ℚ) / (img.width : ℚ) < 21 / 40)
    (hTh : 0 < new_height img.width img.height) :
    (runScript ker decode encode fs).1 = none ∧
    (runScript ker decode encode fs).2 "ChangeList_crop.png" =
      some (encode (crop (resize ker img 1200
        (new_height img.width img.height).toNat) 0 0 1200 630)) ∧
    (crop (resize ker img 1200
      (new_height img.width img.height).toNat) 0 0 1200 630).width = 1200 ∧
    (crop (resize ker img 1200
      (new_height img.width img.height).toNat) 0 0 1200 630).height = 630 ∧
    ∀ x y, (new_height img.width img.height).toNat ≤ y →
      (crop (resize ker img 1200
        (new_height img.width img.height).toNat) 0 0 1200 630).px x y = 0 := by
  rw [runScript_ok ker decode encode fs bytes img hfs hdec (by omega) (by omega)]
  refine ⟨rfl, by simp [fsWrite], rfl, rfl, ?_⟩
  intro x y hy
  refine if_neg ?_
  simp only [resize, Nat.sub_zero, Nat.add_zero]
  omega

theorem c8_amended_witness :
    fsSrc "ChangeList.png" = some [0] ∧
    decodeConst 1000 400 [0] = some (mkImg 1000 400) ∧
    0 < (mkImg 1000 400).width ∧
    ((mkImg 1000 400).height : ℚ) / ((mkImg 1000 400).width : ℚ) < 21 / 40 ∧
    0 < new_height 1000 400 ∧
    ((runScript kerZero (decodeConst 1000 400) encodeDims fsSrc).1 = none ∧
      (runScript kerZero (decodeConst 1000 400) encodeDims fsSrc).2
        "ChangeList_crop.png" =
        some (encodeDims (crop (resize kerZero (mkImg 1000 400) 1200
          (new_height (mkImg 1000 400).width (mkImg 1000 400).height).toNat)
          0 0 1200 630)) ∧
      (crop (resize kerZero (mkImg 1000 400) 1200
        (new_height (mkImg 1000 400).width (mkImg 1000 400).height).toNat)
        0 0 1200 630).width = 1200 ∧
      (crop (resize kerZero (mkImg 1000 400) 1200
        (new_height (mkImg 1000 400).width (mkImg 1000 400).height).toNat)
        0 0 1200 630).height = 630 ∧
      ∀ x y, (new_height (mkImg 1000 400).width (mkImg 1000 400).height).toNat ≤ y →
        (crop (resize kerZero (mkImg 1000 400) 1200
          (new_height (mkImg 1000 400).width (mkImg 1000 400).height).toNat)
          0 0 1200 630).px x y = 0) :=
  have hpos : 0 < new_height 1000 400 := by
    rw [new_height_eq (by norm_num) (by norm_num)]
    norm_num
  ⟨by simp [fsSrc], rfl, by decide, by norm_num [mkImg], hpos,
    c8_amended kerZero (decodeConst 1000 400) encodeDims fsSrc [0]
      (mkImg 1000 400) (by simp [fsSrc]) rfl (by decide) (by norm_num [mkImg]) hpos⟩

/-- C9: the pipeline never touches any file other than
`ChangeList_crop.png`; in particular the source `ChangeList.png` is only
read, never written (resize and crop each build fresh buffers in the pure
model). -/
theorem c9_source_untouched (ker : Kernel) (decode : List ℕ → Option PILImage)
    (encode : PILImage → List ℕ) (fs : FS) (name : String)
    (hname : name ≠ "ChangeList_crop.png") :
    (runScript ker decode encode fs).2 name = fs name := by
  rcases hfs : fs "ChangeList.png" with _ | bytes
  · rw [runScript_noFile ker decode encode fs hfs]
  · rcases hdec : decode bytes with _ | img
    · rw [runScript_badDecode ker decode encode fs bytes hfs hdec]
    · rcases Nat.eq_zero_or_pos img.width with h0 | h0
      · rw [runScript_zeroWidth ker decode encode fs bytes img hfs hdec h0]
      · rcases Nat.eq_zero_or_pos (new_height img.width img.height).toNat with hz | hz
        · rw [runScript_zeroHeight ker decode encode fs bytes img hfs hdec
            (by omega) hz]
        · rw [runScript_ok ker decode encode fs bytes img hfs hdec
            (by omega) (by omega)]
          simp [fsWrite, hname]

theorem c9_source_untouched_witness :
    "ChangeList.png" ≠ "ChangeList_crop.png" ∧
    (runScript kerZero (decodeConst 1200 630) encodeDims fsSrc).2
        "ChangeList.png" = fsSrc "ChangeList.png" :=
  ⟨by decide, c9_source_untouched kerZero (decodeConst 1200 630) encodeDims
    fsSrc "ChangeList.png" (by decide)⟩

/-- C10: the resize step in the pipeline always targets width exactly 1200
(a hard-coded constant), so a narrow source with `0 < W < 1200` is strictly
upscaled and never left at its original width. -/
theorem c10_upscale (ker : Kernel) (img : PILImage)
    (hW : 0 < img.width) (hlt : img.width < 1200) :
    (resize ker img 1200 (new_height img.width img.height).toNat).width = 1200 ∧
    img.width <
      (resize ker img 1200 (new_height img.width img.height).toNat).width :=
  ⟨rfl, hlt⟩

theorem c10_upscale_witness :
    0 < (mkImg 800 600).width ∧ (mkImg 800 600).width < 1200 ∧
    ((resize kerZero (mkImg 800 600) 1200
        (new_height (mkImg 800 600).width (mkImg 800 600).height).toNat).width = 1200 ∧
      (mkImg 800 600).width <
        (resize kerZero (mkImg 800 600) 1200
          (new_height (mkImg 800 600).width (mkImg 800 600).height).toNat).width) :=
  ⟨by decide, by decide,
    c10_upscale kerZero (mkImg 800 600) (by decide) (by decide)⟩

end Orw
